import Mathlib

/-!
Shallow embedding of the 7 MHz SSB transceiver controller firmware
(`firmware/7mhz_ssb_trx/7mhz_ssb_trx.ino`).

Machine integers are modelled as `Nat` with explicit reduction modulo
`2 ^ w` wherever the C code computes in `uint64_t` (frequencies and
step sizes), `unsigned long` / `uint32_t` (millisecond timestamps and
the saved frequency) or `uint8_t` / `uint16_t` (step index, magic).
The peripheral capabilities (Si5351 synthesizer, OLED display, TX
enable pin, EEPROM) are modelled by their observable effect: the value
commanded, the snapshot rendered, the logic level written, the record
stored.
-/

namespace Trx

/-- `2 ^ 64`, the modulus of `uint64_t` arithmetic. -/
def U64 : Nat := 18446744073709551616

/-- `2 ^ 32`, the modulus of `uint32_t` and AVR `unsigned long` arithmetic. -/
def U32 : Nat := 4294967296

/-- `2 ^ 16`, the modulus of `uint16_t` arithmetic. -/
def U16 : Nat := 65536

/-- `2 ^ 8`, the modulus of `uint8_t` arithmetic. -/
def U8 : Nat := 256

/-- `uint64_t` addition, wrapping modulo `2 ^ 64`. -/
def u64add (a b : Nat) : Nat := (a + b) % U64

/-- `uint64_t` subtraction, wrapping below zero modulo `2 ^ 64`. -/
def u64sub (a b : Nat) : Nat := (a % U64 + (U64 - b % U64)) % U64

/-- `uint64_t` multiplication, wrapping modulo `2 ^ 64`. -/
def u64mul (a b : Nat) : Nat := (a * b) % U64

/-- `unsigned long` (32-bit) subtraction, as in `millis() - last_time`. -/
def u32sub (a b : Nat) : Nat := (a % U32 + (U32 - b % U32)) % U32

/-- `IF_FREQ` (sketch line 48): 9.000 MHz intermediate-frequency offset. -/
def IF_FREQ : Nat := 9000000

/-- `FREQ_MIN` (line 50): 7.000 MHz lower tuning bound. -/
def FREQ_MIN : Nat := 7000000

/-- `FREQ_MAX` (line 51): 7.200 MHz upper tuning bound. -/
def FREQ_MAX : Nat := 7200000

/-- `FREQ_DEFAULT` (line 52): 7.100 MHz default frequency. -/
def FREQ_DEFAULT : Nat := 7100000

/-- `EEPROM_MAGIC_VALUE` (line 64). -/
def EEPROM_MAGIC_VALUE : Nat := 0xAA55

/-- `step_sizes[]` (line 90): the ordered step table. -/
def step_sizes : List Nat := [10, 100, 1000, 10000]

/-- `num_steps` (line 91): length of the step table. -/
def num_steps : Nat := step_sizes.length

/-- `debounce_delay` (line 97): 50 ms debounce window. -/
def debounce_delay : Nat := 50

/-- The global tuning variables of the sketch (lines 84-92). -/
structure TrxState where
  frequency : Nat
  step_size : Nat
  step_index : Nat
  tx_mode : Bool
  display_update_needed : Bool
deriving DecidableEq, Repr

/-- The initial values of the globals (lines 84-92): frequency 7.100 MHz,
step 1 kHz at index 2, receive mode, display flag set. -/
def startupState : TrxState :=
  { frequency := FREQ_DEFAULT
    step_size := 1000
    step_index := 2
    tx_mode := false
    display_update_needed := true }

/-- `updateVFO` (lines 203-210): the value passed to `si5351.set_freq`
on the primary channel `CLK0`, namely `(frequency + IF_FREQ) * 100ULL`
computed in `uint64_t`. -/
def updateVFO (frequency : Nat) : Nat := u64mul (u64add frequency IF_FREQ) 100

/-- Result of `encoder.process()`: `DIR_CW`, `DIR_CCW`, or neither. -/
inductive Dir
  | cw
  | ccw
  | idle
deriving DecidableEq, Repr

/-- `handleEncoder` (lines 215-231): apply one encoder tick to the
globals; returns the new globals together with the value commanded to
the synthesizer (the argument of `si5351.set_freq`), when any. -/
def handleEncoder (result : Dir) (s : TrxState) : TrxState × Option Nat :=
  match result with
  | .cw =>
      if u64add s.frequency s.step_size ≤ FREQ_MAX then
        let f := u64add s.frequency s.step_size
        ({ s with frequency := f, display_update_needed := true }, some (updateVFO f))
      else (s, none)
  | .ccw =>
      if u64add s.step_size FREQ_MIN ≤ s.frequency then
        let f := u64sub s.frequency s.step_size
        ({ s with frequency := f, display_update_needed := true }, some (updateVFO f))
      else (s, none)
  | .idle => (s, none)

/-- The state part of `handleEncoder`. -/
def applyTune (s : TrxState) (d : Dir) : TrxState := (handleEncoder d s).1

/-- Fold a sequence of encoder ticks over the state. -/
def runTunes (s : TrxState) (evs : List Dir) : TrxState := evs.foldl applyTune s

/-- The logical view of the EEPROM record: a 4-byte unsigned frequency
at address 0, a 1-byte step index at address 4, a 2-byte magic sentinel
at address 8 (lines 61-63), at non-overlapping offsets. -/
structure Eeprom where
  freq : Nat
  step : Nat
  magic : Nat
deriving DecidableEq, Repr

/-- `saveSettings` (lines 388-392): write `(uint32_t)frequency`,
`step_index` (a `uint8_t`) and the magic sentinel, overwriting the
whole record. -/
def saveSettings (s : TrxState) : Eeprom :=
  { freq := s.frequency % U32
    step := s.step_index % U8
    magic := EEPROM_MAGIC_VALUE % U16 }

/-- `loadSettings` (lines 397-419): read the record and apply it to the
current globals `s` (at startup, the compile-time defaults).  The magic
is checked first; inside that branch the saved frequency is adopted only
when in range, the step index is adopted and reset to 2 only when out of
range, and `step_size` is recomputed from the table. -/
def loadSettings (e : Eeprom) (s : TrxState) : TrxState :=
  if e.magic = EEPROM_MAGIC_VALUE then
    let frequency := if FREQ_MIN ≤ e.freq ∧ e.freq ≤ FREQ_MAX then e.freq else s.frequency
    let step_index := if num_steps ≤ e.step then 2 else e.step
    { s with
      frequency := frequency
      step_index := step_index
      step_size := step_sizes.getD step_index 0 }
  else s

/-- A record with correct magic, out-of-range frequency 0, and stored
step index 1 (a valid index different from the default index 2). -/
def badRecord : Eeprom := { freq := 0, step := 1, magic := 0xAA55 }

/-- The inner PTT mode update of `handlePTT` (lines 244-252): given the
debounce-accepted level (`new_tx_mode = true` means the line read LOW),
update `tx_mode` and return the level written by
`digitalWrite(PIN_TX_EN, _)`, when one happens. -/
def pttApply (new_tx_mode : Bool) (s : TrxState) : TrxState × Option Bool :=
  if new_tx_mode ≠ s.tx_mode then
    ({ s with tx_mode := new_tx_mode, display_update_needed := true }, some new_tx_mode)
  else (s, none)

/-- The full mutable state of the sketch: the tuning globals plus the
static debounce locals of `handlePTT` / `handleEncoderSwitch`
(lines 237, 262, 95-96) and the EEPROM contents. -/
structure MachState where
  trx : TrxState
  last_ptt_state : Bool
  last_sw_state : Bool
  last_enc_sw_time : Nat
  last_ptt_time : Nat
  eeprom : Eeprom
deriving DecidableEq, Repr

/-- `handlePTT` (lines 236-256).  `lvl` is the raw `digitalRead` level
(`true` = HIGH), `now` is `millis()`.  A rejected transition still
overwrites `last_ptt_state` (line 254 sits outside the debounce check). -/
def handlePTT (now : Nat) (lvl : Bool) (m : MachState) : MachState :=
  if lvl ≠ m.last_ptt_state then
    let m1 :=
      if debounce_delay < u32sub now m.last_ptt_time then
        { m with last_ptt_time := now, trx := (pttApply (!lvl) m.trx).1 }
      else m
    { m1 with last_ptt_state := lvl }
  else m

/-- The `StepCycle` update of `handleEncoderSwitch` (lines 270-272). -/
def stepCycle (s : TrxState) : TrxState :=
  let idx := (s.step_index + 1) % num_steps
  { s with
    step_index := idx
    step_size := step_sizes.getD idx 0
    display_update_needed := true }

/-- `handleEncoderSwitch` (lines 261-282): edge-triggered on the
HIGH-to-LOW transition, debounced, cycling the step table and saving to
EEPROM on acceptance; `last_sw_state` is updated unconditionally
(line 281). -/
def handleEncoderSwitch (now : Nat) (lvl : Bool) (m : MachState) : MachState :=
  let m1 :=
    if lvl = false ∧ m.last_sw_state = true then
      if debounce_delay < u32sub now m.last_enc_sw_time then
        let t := stepCycle m.trx
        { m with last_enc_sw_time := now, trx := t, eeprom := saveSettings t }
      else m
    else m
  { m1 with last_sw_state := lvl }

/-- `n` applications of the `StepCycle` update. -/
def iterStepCycle : Nat → TrxState → TrxState
  | 0, s => s
  | k + 1, s => stepCycle (iterStepCycle k s)

/-- Repeatedly feed a HIGH PTT level sample into `handlePTT` at the
given sequence of times. -/
def runPTTHigh (acc : MachState) (ts : List Nat) : MachState :=
  ts.foldl (fun a t => handlePTT t true a) acc

/-- A concrete EEPROM content. -/
def e0 : Eeprom := { freq := 0, step := 0, magic := 0 }

/-- The machine state right after `setup()` with an empty EEPROM:
globals at their defaults, both debounce levels HIGH, timestamps 0. -/
def mach0 : MachState :=
  { trx := startupState
    last_ptt_state := true
    last_sw_state := true
    last_enc_sw_time := 0
    last_ptt_time := 0
    eeprom := e0 }

/-- A transmitting state: PTT held LOW (asserted, accepted at time
1000 ms), `tx_mode` on, display up to date. -/
def mach9 : MachState :=
  { trx := { startupState with tx_mode := true, display_update_needed := false }
    last_ptt_state := false
    last_sw_state := true
    last_enc_sw_time := 0
    last_ptt_time := 1000
    eeprom := e0 }

/-- The snapshot of the tuning state the display renders
(`drawFrequency`, `drawStepIndicator`, `drawStatus`): everything except
the dirty flag itself. -/
def view (s : TrxState) : Nat × Nat × Nat × Bool :=
  (s.frequency, s.step_size, s.step_index, s.tx_mode)

/-- The raw inputs sampled during one `loop()` iteration: the decoded
encoder tick, the PTT and encoder-switch levels, and `millis()`. -/
structure LoopInputs where
  enc : Dir
  ptt : Bool
  sw : Bool
  now : Nat

/-- The machine state together with the last snapshot handed to the
display capability. -/
structure World where
  mach : MachState
  rendered : Option (Nat × Nat × Nat × Bool)
deriving DecidableEq

/-- `handleEncoder` acting on the full machine state. -/
def handleEncoderM (d : Dir) (m : MachState) : MachState :=
  { m with trx := (handleEncoder d m.trx).1 }

/-- The render step of `loop()` (lines 164-167): if the dirty flag is
set, invoke the display with the current snapshot and clear the flag;
returns whether a render happened. -/
def loopRender (m : MachState) (r : Option (Nat × Nat × Nat × Bool)) : World × Bool :=
  if m.trx.display_update_needed then
    ({ mach := { m with trx := { m.trx with display_update_needed := false } }
       rendered := some (view m.trx) }, true)
  else ({ mach := m, rendered := r }, false)

/-- One iteration of `loop()` (lines 159-168): `handleEncoder`,
`handlePTT`, `handleEncoderSwitch`, then the dirty-flag render check. -/
def loopIter (w : World) (i : LoopInputs) : World × Bool :=
  loopRender
    (handleEncoderSwitch i.now i.sw (handlePTT i.now i.ptt (handleEncoderM i.enc w.mach)))
    w.rendered

/-- The world right after `setup()`: `updateDisplay()` has rendered the
startup state (line 151) but `display_update_needed` is still true —
`setup()` never clears it. -/
def postSetupWorld : World :=
  { mach := mach0, rendered := some (view startupState) }

/-- An iteration with no input activity: no encoder tick, both lines
idle at HIGH. -/
def idleInputs : LoopInputs :=
  { enc := Dir.idle, ptt := true, sw := true, now := 0 }

/-- A clean loop boundary: dirty flag clear, display showing the current
state. -/
def cleanWorld : World :=
  { mach := { mach0 with trx := { startupState with display_update_needed := false } }
    rendered := some (view { startupState with display_update_needed := false }) }

/-- A quiet iteration carrying one clockwise encoder tick. -/
def tuneInputs : LoopInputs :=
  { enc := Dir.cw, ptt := true, sw := true, now := 0 }

lemma step_mem_bound {x : Nat} (h : x ∈ step_sizes) : 0 < x ∧ x ≤ 10000 := by
  simp only [step_sizes, List.mem_cons, List.not_mem_nil, or_false] at h
  rcases h with h | h | h | h <;> omega

lemma u64add_small {a b : Nat} (h : a + b < U64) : u64add a b = a + b := by
  simp only [u64add, U64] at h ⊢
  omega

lemma u64sub_small {a b : Nat} (hb : b ≤ a) (ha : a < U64) : u64sub a b = a - b := by
  simp only [u64sub, U64] at ha ⊢
  omega

lemma u64mul_small {a b : Nat} (h : a * b < U64) : u64mul a b = a * b := by
  simp only [u64mul, U64] at h ⊢
  omega

lemma handleEncoder_cw (s : TrxState) :
    handleEncoder .cw s =
      if u64add s.frequency s.step_size ≤ FREQ_MAX then
        ({ s with frequency := u64add s.frequency s.step_size, display_update_needed := true },
         some (updateVFO (u64add s.frequency s.step_size)))
      else (s, none) := rfl

lemma handleEncoder_ccw (s : TrxState) :
    handleEncoder .ccw s =
      if u64add s.step_size FREQ_MIN ≤ s.frequency then
        ({ s with frequency := u64sub s.frequency s.step_size, display_update_needed := true },
         some (updateVFO (u64sub s.frequency s.step_size)))
      else (s, none) := rfl

lemma handleEncoder_idle (s : TrxState) : handleEncoder .idle s = (s, none) := rfl

lemma applyTune_spec (s : TrxState) (d : Dir)
    (hs : s.step_size ∈ step_sizes) (h1 : FREQ_MIN ≤ s.frequency)
    (h2 : s.frequency ≤ FREQ_MAX) :
    (FREQ_MIN ≤ (applyTune s d).frequency ∧ (applyTune s d).frequency ≤ FREQ_MAX) ∧
    ((applyTune s d).frequency = s.frequency + s.step_size ∨
     s.frequency = (applyTune s d).frequency + s.step_size ∨
     (applyTune s d).frequency = s.frequency) ∧
    (applyTune s d).step_size = s.step_size := by
  obtain ⟨hp, hb⟩ := step_mem_bound hs
  simp only [FREQ_MIN, FREQ_MAX] at h1 h2
  cases d with
  | cw =>
      have hadd : u64add s.frequency s.step_size = s.frequency + s.step_size :=
        u64add_small (by simp only [U64]; omega)
      rcases le_or_lt (u64add s.frequency s.step_size) FREQ_MAX with h | h
      · rw [applyTune, handleEncoder_cw, if_pos h]
        rw [hadd] at h
        simp only [FREQ_MAX] at h
        refine ⟨⟨?_, ?_⟩, Or.inl hadd, rfl⟩
        · show FREQ_MIN ≤ u64add s.frequency s.step_size
          rw [hadd]
          show 7000000 ≤ s.frequency + s.step_size
          omega
        · show u64add s.frequency s.step_size ≤ FREQ_MAX
          rw [hadd]
          show s.frequency + s.step_size ≤ 7200000
          omega
      · rw [applyTune, handleEncoder_cw, if_neg (not_le.mpr h)]
        exact ⟨⟨h1, h2⟩, Or.inr (Or.inr rfl), rfl⟩
  | ccw =>
      have hadd : u64add s.step_size FREQ_MIN = s.step_size + FREQ_MIN :=
        u64add_small (by simp only [U64, FREQ_MIN]; omega)
      rcases le_or_lt (u64add s.step_size FREQ_MIN) s.frequency with h | h
      · have hg : s.step_size + 7000000 ≤ s.frequency := by
          rw [hadd] at h
          simpa only [FREQ_MIN] using h
        have hsub : u64sub s.frequency s.step_size = s.frequency - s.step_size :=
          u64sub_small (by omega) (by simp only [U64]; omega)
        rw [applyTune, handleEncoder_ccw, if_pos h]
        refine ⟨⟨?_, ?_⟩, Or.inr (Or.inl ?_), rfl⟩
        · show FREQ_MIN ≤ u64sub s.frequency s.step_size
          rw [hsub]
          show 7000000 ≤ s.frequency - s.step_size
          omega
        · show u64sub s.frequency s.step_size ≤ FREQ_MAX
          rw [hsub]
          show s.frequency - s.step_size ≤ 7200000
          omega
        · show s.frequency = u64sub s.frequency s.step_size + s.step_size
          rw [hsub]
          omega
      · rw [applyTune, handleEncoder_ccw, if_neg (not_le.mpr h)]
        exact ⟨⟨h1, h2⟩, Or.inr (Or.inr rfl), rfl⟩
  | idle =>
      rw [applyTune, handleEncoder_idle]
      exact ⟨⟨h1, h2⟩, Or.inr (Or.inr rfl), rfl⟩

lemma runTunes_inv (evs : List Dir) (s : TrxState)
    (hs : s.step_size ∈ step_sizes) (h1 : FREQ_MIN ≤ s.frequency)
    (h2 : s.frequency ≤ FREQ_MAX) :
    FREQ_MIN ≤ (runTunes s evs).frequency ∧ (runTunes s evs).frequency ≤ FREQ_MAX := by
  induction evs generalizing s with
  | nil => exact ⟨h1, h2⟩
  | cons d tl ih =>
      obtain ⟨⟨j1, j2⟩, _, j3⟩ := applyTune_spec s d hs h1 h2
      have hstep : runTunes s (d :: tl) = runTunes (applyTune s d) tl := rfl
      rw [hstep]
      exact ih (applyTune s d) (j3 ▸ hs) j1 j2

/-- Claim C1: for every sequence of `TuneUp`/`TuneDown` (clockwise /
counter-clockwise) encoder events applied to a state whose frequency
starts in `[FREQ_MIN, FREQ_MAX]` and whose step size is a step-table
entry, the frequency stays within `[FREQ_MIN, FREQ_MAX]` after every
event (every prefix of the sequence, the fold being over an arbitrary
sequence), and each single event either changes the frequency by
exactly the current step size (upward or downward) or leaves it
unchanged; the handler is a total function with no error outcome and
the frequency never wraps. -/
theorem tune_bounds (evs : List Dir) (s : TrxState)
    (hs : s.step_size ∈ step_sizes) (h1 : FREQ_MIN ≤ s.frequency)
    (h2 : s.frequency ≤ FREQ_MAX) :
    (FREQ_MIN ≤ (runTunes s evs).frequency ∧ (runTunes s evs).frequency ≤ FREQ_MAX) ∧
    ∀ d : Dir,
      (applyTune s d).frequency = s.frequency + s.step_size ∨
      s.frequency = (applyTune s d).frequency + s.step_size ∨
      (applyTune s d).frequency = s.frequency := by
  refine ⟨runTunes_inv evs s hs h1 h2, fun d => ?_⟩
  exact (applyTune_spec s d hs h1 h2).2.1

/-- Witness for C1 at the startup state and a concrete two-event sequence. -/
theorem tune_bounds_witness :
    (startupState.step_size ∈ step_sizes ∧
     FREQ_MIN ≤ startupState.frequency ∧ startupState.frequency ≤ FREQ_MAX) ∧
    (FREQ_MIN ≤ (runTunes startupState [Dir.cw, Dir.ccw]).frequency ∧
     (runTunes startupState [Dir.cw, Dir.ccw]).frequency ≤ FREQ_MAX) :=
  ⟨⟨by decide, by decide, by decide⟩,
   (tune_bounds [Dir.cw, Dir.ccw] startupState (by decide) (by decide) (by decide)).1⟩

/-- Claim C3: whenever `handleEncoder` accepts a frequency change and
commands the synthesizer, the commanded value is exactly
`(new frequency + 9000000) * 100` as an exact natural number (the
`uint64_t` computation does not wrap), and the new frequency — hence
the frequency the command corresponds to — is within
`[FREQ_MIN, FREQ_MAX]`. -/
theorem vfo_command_exact (d : Dir) (s : TrxState) (c : Nat)
    (hs : s.step_size ∈ step_sizes) (h1 : FREQ_MIN ≤ s.frequency)
    (h2 : s.frequency ≤ FREQ_MAX)
    (hc : (handleEncoder d s).2 = some c) :
    c = ((handleEncoder d s).1.frequency + IF_FREQ) * 100 ∧
    FREQ_MIN ≤ (handleEncoder d s).1.frequency ∧
    (handleEncoder d s).1.frequency ≤ FREQ_MAX := by
  obtain ⟨⟨j1, j2⟩, _, _⟩ := applyTune_spec s d hs h1 h2
  have hv : ∀ f : Nat, f ≤ FREQ_MAX → updateVFO f = (f + IF_FREQ) * 100 := by
    intro f hf
    simp only [FREQ_MAX] at hf
    have ha : u64add f IF_FREQ = f + IF_FREQ :=
      u64add_small (by simp only [U64, IF_FREQ]; omega)
    have hm : u64mul (f + IF_FREQ) 100 = (f + IF_FREQ) * 100 :=
      u64mul_small (by simp only [U64, IF_FREQ]; omega)
    rw [updateVFO, ha, hm]
  have hPT : (handleEncoder d s).1 = applyTune s d := rfl
  rw [hPT]
  cases d with
  | cw =>
      rcases le_or_lt (u64add s.frequency s.step_size) FREQ_MAX with h | h
      · have hcc : updateVFO (u64add s.frequency s.step_size) = c := by
          rw [handleEncoder_cw, if_pos h] at hc
          exact Option.some.inj hc
        have hfreq : (applyTune s Dir.cw).frequency = u64add s.frequency s.step_size := by
          rw [applyTune, handleEncoder_cw, if_pos h]
        refine ⟨?_, j1, j2⟩
        rw [hfreq, ← hcc]
        exact hv _ h
      · rw [handleEncoder_cw, if_neg (not_le.mpr h)] at hc
        exact Option.noConfusion hc
  | ccw =>
      rcases le_or_lt (u64add s.step_size FREQ_MIN) s.frequency with h | h
      · have hcc : updateVFO (u64sub s.frequency s.step_size) = c := by
          rw [handleEncoder_ccw, if_pos h] at hc
          exact Option.some.inj hc
        have hfreq : (applyTune s Dir.ccw).frequency = u64sub s.frequency s.step_size := by
          rw [applyTune, handleEncoder_ccw, if_pos h]
        have hub : u64sub s.frequency s.step_size ≤ FREQ_MAX := by
          rw [← hfreq]
          exact j2
        refine ⟨?_, j1, j2⟩
        rw [hfreq, ← hcc]
        exact hv _ hub
      · rw [handleEncoder_ccw, if_neg (not_le.mpr h)] at hc
        exact Option.noConfusion hc
  | idle =>
      rw [handleEncoder_idle] at hc
      exact Option.noConfusion hc

/-- Witness for C3: `TuneDown` from 7,100,000 Hz with step 1,000 Hz
commands 1,609,900,000 (0.01 Hz units), i.e. `(7099000 + 9000000) * 100`. -/
theorem vfo_command_exact_witness :
    (handleEncoder Dir.ccw startupState).2 = some 1609900000 ∧
    (startupState.step_size ∈ step_sizes ∧
     FREQ_MIN ≤ startupState.frequency ∧ startupState.frequency ≤ FREQ_MAX) ∧
    (1609900000 = ((handleEncoder Dir.ccw startupState).1.frequency + IF_FREQ) * 100 ∧
     FREQ_MIN ≤ (handleEncoder Dir.ccw startupState).1.frequency ∧
     (handleEncoder Dir.ccw startupState).1.frequency ≤ FREQ_MAX) :=
  ⟨by decide, ⟨by decide, by decide, by decide⟩,
   vfo_command_exact Dir.ccw startupState 1609900000
     (by decide) (by decide) (by decide) (by decide)⟩

/-- Claim C10: the `TuneDown` bound check `frequency >= step_size + FREQ_MIN`
is computed without wrap (for table step sizes the `uint64_t` sum
`step_size + FREQ_MIN` is exact), and the unsigned subtraction
`frequency - step_size` is evaluated only when the guard holds, in which
case it cannot wrap below zero: it equals the exact natural-number
difference, which is still at least `FREQ_MIN`. -/
theorem tuneDown_no_wrap (f s : Nat) (hf : f < U64) (hs : s ∈ step_sizes) :
    u64add s FREQ_MIN = s + FREQ_MIN ∧
    (u64add s FREQ_MIN ≤ f →
      s ≤ f ∧ u64sub f s = f - s ∧ FREQ_MIN ≤ u64sub f s) := by
  obtain ⟨hp, hb⟩ := step_mem_bound hs
  have hadd : u64add s FREQ_MIN = s + FREQ_MIN :=
    u64add_small (by simp only [U64, FREQ_MIN]; omega)
  refine ⟨hadd, fun h => ?_⟩
  rw [hadd] at h
  simp only [FREQ_MIN] at h ⊢
  have hle : s ≤ f := by omega
  have hsub : u64sub f s = f - s := u64sub_small hle hf
  rw [hsub]
  omega

/-- Witness for C10 at frequency 7,100,000 Hz and step 1,000 Hz. -/
theorem tuneDown_no_wrap_witness :
    (7100000 < U64 ∧ 1000 ∈ step_sizes) ∧
    (u64add 1000 FREQ_MIN = 1000 + FREQ_MIN ∧
     (u64add 1000 FREQ_MIN ≤ 7100000 →
       1000 ≤ 7100000 ∧ u64sub 7100000 1000 = 7100000 - 1000 ∧
       FREQ_MIN ≤ u64sub 7100000 1000)) :=
  ⟨⟨by decide, by decide⟩, tuneDown_no_wrap 7100000 1000 (by decide) (by decide)⟩

lemma loadSettings_fields (e : Eeprom) :
    (e.magic ≠ EEPROM_MAGIC_VALUE → loadSettings e startupState = startupState) ∧
    (e.magic = EEPROM_MAGIC_VALUE →
      (loadSettings e startupState).frequency =
        (if FREQ_MIN ≤ e.freq ∧ e.freq ≤ FREQ_MAX then e.freq else FREQ_DEFAULT) ∧
      (loadSettings e startupState).step_index =
        (if e.step < num_steps then e.step else 2) ∧
      (loadSettings e startupState).step_size =
        step_sizes.getD (loadSettings e startupState).step_index 0 ∧
      (loadSettings e startupState).step_index < num_steps ∧
      (loadSettings e startupState).tx_mode = false) := by
  constructor
  · intro hm
    rw [loadSettings, if_neg hm]
  · intro hm
    have hns : num_steps = 4 := rfl
    simp only [loadSettings, if_pos hm]
    rcases Decidable.em (FREQ_MIN ≤ e.freq ∧ e.freq ≤ FREQ_MAX) with hf | hf
    · rw [if_pos hf, if_pos hf]
      rcases Nat.lt_or_ge e.step num_steps with hi | hi
      · rw [if_neg (by omega : ¬ num_steps ≤ e.step), if_pos hi]
        exact ⟨rfl, rfl, trivial, hi, rfl⟩
      · rw [if_pos hi, if_neg (by omega : ¬ e.step < num_steps)]
        exact ⟨rfl, rfl, trivial, by decide, rfl⟩
    · rw [if_neg hf, if_neg hf]
      rcases Nat.lt_or_ge e.step num_steps with hi | hi
      · rw [if_neg (by omega : ¬ num_steps ≤ e.step), if_pos hi]
        exact ⟨rfl, rfl, trivial, hi, rfl⟩
      · rw [if_pos hi, if_neg (by omega : ¬ e.step < num_steps)]
        exact ⟨rfl, rfl, trivial, by decide, rfl⟩

/-- Claim C2 counterexample: loading a record whose magic is correct but
whose frequency is 0 (out of range) does NOT discard the whole record:
the frequency falls back to the default, but the stored step index 1 is
adopted — the result's step index is 1, not the default index 2 the
claim requires. -/
theorem load_mixed_record_counterexample :
    (loadSettings badRecord startupState).frequency = FREQ_DEFAULT ∧
    (loadSettings badRecord startupState).step_index = 1 ∧
    ¬ (loadSettings badRecord startupState).step_index = 2 := by decide

/-- Claim C2 (amended): `loadSettings` validates the record fieldwise,
not as a whole.  A wrong magic discards everything and returns the
startup defaults.  With a correct magic, the frequency is adopted
exactly when it lies in `[FREQ_MIN, FREQ_MAX]` (defaulting to
`FREQ_DEFAULT` otherwise) while the step index is adopted exactly when
it is below the table length (reset to the default index 2 otherwise),
each independently of the other; the resulting step index is always in
range and `step_size` is recomputed from the table. -/
theorem load_fieldwise_validation (e : Eeprom) :
    (e.magic ≠ EEPROM_MAGIC_VALUE → loadSettings e startupState = startupState) ∧
    (e.magic = EEPROM_MAGIC_VALUE →
      (loadSettings e startupState).frequency =
        (if FREQ_MIN ≤ e.freq ∧ e.freq ≤ FREQ_MAX then e.freq else FREQ_DEFAULT) ∧
      (loadSettings e startupState).step_index =
        (if e.step < num_steps then e.step else 2) ∧
      (loadSettings e startupState).step_size =
        step_sizes.getD (loadSettings e startupState).step_index 0 ∧
      (loadSettings e startupState).step_index < num_steps ∧
      (loadSettings e startupState).tx_mode = false) :=
  loadSettings_fields e

/-- Witness for C2's amended theorem at the mixed record. -/
theorem load_fieldwise_validation_witness :
    badRecord.magic = EEPROM_MAGIC_VALUE ∧
    ((loadSettings badRecord startupState).frequency =
      (if FREQ_MIN ≤ badRecord.freq ∧ badRecord.freq ≤ FREQ_MAX then badRecord.freq
       else FREQ_DEFAULT) ∧
     (loadSettings badRecord startupState).step_index =
      (if badRecord.step < num_steps then badRecord.step else 2) ∧
     (loadSettings badRecord startupState).step_size =
      step_sizes.getD (loadSettings badRecord startupState).step_index 0 ∧
     (loadSettings badRecord startupState).step_index < num_steps ∧
     (loadSettings badRecord startupState).tx_mode = false) :=
  ⟨by decide, (load_fieldwise_validation badRecord).2 (by decide)⟩

/-- Claim C4: for every state with frequency in `[FREQ_MIN, FREQ_MAX]`
and step index below the table length, `saveSettings` followed by
`loadSettings` (applied, as at boot, to the startup defaults)
reproduces the frequency and the step index exactly: the persisted
fields round-trip through the 4-byte frequency, 1-byte step index,
2-byte magic record. -/
theorem save_load_roundtrip (s : TrxState)
    (h1 : FREQ_MIN ≤ s.frequency) (h2 : s.frequency ≤ FREQ_MAX)
    (h3 : s.step_index < num_steps) :
    (loadSettings (saveSettings s) startupState).frequency = s.frequency ∧
    (loadSettings (saveSettings s) startupState).step_index = s.step_index := by
  have hfm : s.frequency % U32 = s.frequency := by
    simp only [FREQ_MAX] at h2
    simp only [U32]
    omega
  have him : s.step_index % U8 = s.step_index := by
    have hns : num_steps = 4 := rfl
    rw [hns] at h3
    simp only [U8]
    omega
  have hmagic : (saveSettings s).magic = EEPROM_MAGIC_VALUE := by
    simp only [saveSettings]
    decide
  have hfreq_eq : (saveSettings s).freq = s.frequency := by
    simp only [saveSettings]
    exact hfm
  have hstep_eq : (saveSettings s).step = s.step_index := by
    simp only [saveSettings]
    exact him
  obtain ⟨hf, hi, -, -, -⟩ := (loadSettings_fields (saveSettings s)).2 hmagic
  rw [hfreq_eq] at hf
  rw [hstep_eq] at hi
  constructor
  · rw [hf, if_pos ⟨h1, h2⟩]
  · rw [hi, if_pos h3]

/-- Witness for C4 at the startup state. -/
theorem save_load_roundtrip_witness :
    (FREQ_MIN ≤ startupState.frequency ∧ startupState.frequency ≤ FREQ_MAX ∧
     startupState.step_index < num_steps) ∧
    ((loadSettings (saveSettings startupState) startupState).frequency =
       startupState.frequency ∧
     (loadSettings (saveSettings startupState) startupState).step_index =
       startupState.step_index) :=
  ⟨⟨by decide, by decide, by decide⟩,
   save_load_roundtrip startupState (by decide) (by decide) (by decide)⟩

lemma hes_accept (now : Nat) (lvl : Bool) (m : MachState)
    (hc : lvl = false ∧ m.last_sw_state = true)
    (hg : debounce_delay < u32sub now m.last_enc_sw_time) :
    handleEncoderSwitch now lvl m =
      { m with
        last_enc_sw_time := now
        trx := stepCycle m.trx
        eeprom := saveSettings (stepCycle m.trx)
        last_sw_state := lvl } := by
  simp only [handleEncoderSwitch, if_pos hc, if_pos hg]

lemma hes_rejwin (now : Nat) (lvl : Bool) (m : MachState)
    (hc : lvl = false ∧ m.last_sw_state = true)
    (hg : ¬ debounce_delay < u32sub now m.last_enc_sw_time) :
    handleEncoderSwitch now lvl m = { m with last_sw_state := lvl } := by
  simp only [handleEncoderSwitch, if_pos hc, if_neg hg]

lemma hes_noedge (now : Nat) (lvl : Bool) (m : MachState)
    (hc : ¬ (lvl = false ∧ m.last_sw_state = true)) :
    handleEncoderSwitch now lvl m = { m with last_sw_state := lvl } := by
  simp only [handleEncoderSwitch, if_neg hc]

lemma hpt_accept (now : Nat) (lvl : Bool) (m : MachState)
    (hne : lvl ≠ m.last_ptt_state)
    (hg : debounce_delay < u32sub now m.last_ptt_time) :
    handlePTT now lvl m =
      { m with
        last_ptt_time := now
        trx := (pttApply (!lvl) m.trx).1
        last_ptt_state := lvl } := by
  simp only [handlePTT, if_pos hne, if_pos hg]

lemma hpt_rejwin (now : Nat) (lvl : Bool) (m : MachState)
    (hne : lvl ≠ m.last_ptt_state)
    (hg : ¬ debounce_delay < u32sub now m.last_ptt_time) :
    handlePTT now lvl m = { m with last_ptt_state := lvl } := by
  simp only [handlePTT, if_pos hne, if_neg hg]

lemma hpt_same (now : Nat) (lvl : Bool) (m : MachState)
    (hne : ¬ lvl ≠ m.last_ptt_state) :
    handlePTT now lvl m = m := by
  simp only [handlePTT, if_neg hne]

lemma stepCycle_idx (t : TrxState) :
    (stepCycle t).step_index = (t.step_index + 1) % num_steps := rfl

lemma stepCycle_size (t : TrxState) :
    (stepCycle t).step_size = step_sizes.getD (stepCycle t).step_index 0 := rfl

/-- Claim C7: processing a `PttAsserted`-equivalent transition to
transmit is idempotent: the second of two consecutive such updates is a
complete no-op (same state, in particular same `tx_mode` and same dirty
flag, and no `digitalWrite` to the TX enable line), while from receive
mode the first produces exactly one transmit-enable invocation
(`some true`), one `tx_mode` change, and sets the dirty flag. -/
theorem ptt_assert_idempotent (s : TrxState) :
    pttApply true (pttApply true s).1 = ((pttApply true s).1, none) ∧
    (s.tx_mode = false →
      (pttApply true s).2 = some true ∧
      (pttApply true s).1.tx_mode = true ∧
      (pttApply true s).1.display_update_needed = true) := by
  cases hb : s.tx_mode with
  | false =>
      have h1 : pttApply true s =
          ({ s with tx_mode := true, display_update_needed := true }, some true) := by
        simp [pttApply, hb]
      rw [h1]
      constructor
      · simp [pttApply]
      · exact fun _ => ⟨rfl, rfl, rfl⟩
  | true =>
      have h1 : pttApply true s = (s, none) := by simp [pttApply, hb]
      rw [h1]
      constructor
      · simpa using h1
      · intro hc
        exact Bool.noConfusion hc

/-- Witness for C7 at the startup (receive-mode) state. -/
theorem ptt_assert_idempotent_witness :
    startupState.tx_mode = false ∧
    ((pttApply true startupState).2 = some true ∧
     (pttApply true startupState).1.tx_mode = true ∧
     (pttApply true startupState).1.display_update_needed = true) :=
  ⟨by decide, (ptt_assert_idempotent startupState).2 (by decide)⟩

/-- Claim C8: `StepCycle` is cyclic: starting from any state whose step
index is below the table length and whose step size matches the table,
applying the update `num_steps` (= 4) times returns `step_index` — and
hence `step_size` — to its original value, and after every number of
applications `step_index` stays below the table length with `step_size`
equal to the table entry at `step_index`. -/
theorem stepCycle_cyclic (s : TrxState) (h1 : s.step_index < num_steps)
    (h2 : s.step_size = step_sizes.getD s.step_index 0) :
    (iterStepCycle num_steps s).step_index = s.step_index ∧
    (iterStepCycle num_steps s).step_size = s.step_size ∧
    ∀ k : Nat, (iterStepCycle k s).step_index < num_steps ∧
      (iterStepCycle k s).step_size =
        step_sizes.getD (iterStepCycle k s).step_index 0 := by
  have hns : num_steps = 4 := rfl
  have hidx : (iterStepCycle num_steps s).step_index =
      ((((s.step_index + 1) % num_steps + 1) % num_steps + 1) % num_steps + 1)
        % num_steps := rfl
  have hcyc : (iterStepCycle num_steps s).step_index = s.step_index := by
    rw [hidx, hns]
    rw [hns] at h1
    omega
  refine ⟨hcyc, ?_, ?_⟩
  · have hsz : (iterStepCycle num_steps s).step_size =
        step_sizes.getD (iterStepCycle num_steps s).step_index 0 := rfl
    rw [hsz, hcyc, ← h2]
  · intro k
    induction k with
    | zero => exact ⟨h1, h2⟩
    | succ n ih =>
        have hi : (iterStepCycle (n + 1) s).step_index =
            ((iterStepCycle n s).step_index + 1) % num_steps := rfl
        constructor
        · rw [hi, hns]
          omega
        · exact stepCycle_size (iterStepCycle n s)

/-- Witness for C8 at the startup state (index 2, step 1 kHz). -/
theorem stepCycle_cyclic_witness :
    (startupState.step_index < num_steps ∧
     startupState.step_size = step_sizes.getD startupState.step_index 0) ∧
    ((iterStepCycle num_steps startupState).step_index = startupState.step_index ∧
     (iterStepCycle num_steps startupState).step_size = startupState.step_size ∧
     ((iterStepCycle 1 startupState).step_index < num_steps ∧
      (iterStepCycle 1 startupState).step_size =
        step_sizes.getD (iterStepCycle 1 startupState).step_index 0)) :=
  ⟨⟨by decide, by decide⟩,
   (stepCycle_cyclic startupState (by decide) (by decide)).1,
   (stepCycle_cyclic startupState (by decide) (by decide)).2.1,
   (stepCycle_cyclic startupState (by decide) (by decide)).2.2 1⟩

/-- Claim C6: on both level-debounced lines (encoder switch, PTT) a
transition is accepted — observable as any change to the line's
last-accepted timestamp or to the tuning state — only when strictly
more than the 50 ms window has elapsed (in wrapping 32-bit `millis`
arithmetic) since the last accepted transition on that line; and two
encoder-switch presses whose second press arrives within the window of
the first produce exactly one accepted `StepCycle`: one step-table
advance and one EEPROM save. -/
theorem debounce_window (m : MachState) (now t1 tr t2 : Nat) (lvl : Bool)
    (hsw : m.last_sw_state = true)
    (hacc : debounce_delay < u32sub t1 m.last_enc_sw_time)
    (hwin : u32sub t2 t1 ≤ debounce_delay) :
    ((handleEncoderSwitch now lvl m).last_enc_sw_time ≠ m.last_enc_sw_time ∨
      (handleEncoderSwitch now lvl m).trx ≠ m.trx →
      debounce_delay < u32sub now m.last_enc_sw_time) ∧
    ((handlePTT now lvl m).last_ptt_time ≠ m.last_ptt_time ∨
      (handlePTT now lvl m).trx ≠ m.trx →
      debounce_delay < u32sub now m.last_ptt_time) ∧
    ((handleEncoderSwitch t2 false (handleEncoderSwitch tr true
        (handleEncoderSwitch t1 false m))).trx = stepCycle m.trx ∧
     (handleEncoderSwitch t2 false (handleEncoderSwitch tr true
        (handleEncoderSwitch t1 false m))).eeprom = saveSettings (stepCycle m.trx) ∧
     (handleEncoderSwitch t2 false (handleEncoderSwitch tr true
        (handleEncoderSwitch t1 false m))).trx.step_index =
       (m.trx.step_index + 1) % num_steps) := by
  refine ⟨?_, ?_, ?_⟩
  · intro h
    by_cases hc : lvl = false ∧ m.last_sw_state = true
    · by_cases hg : debounce_delay < u32sub now m.last_enc_sw_time
      · exact hg
      · rw [hes_rejwin now lvl m hc hg] at h
        rcases h with h | h <;> exact absurd rfl h
    · rw [hes_noedge now lvl m hc] at h
      rcases h with h | h <;> exact absurd rfl h
  · intro h
    by_cases hne : lvl ≠ m.last_ptt_state
    · by_cases hg : debounce_delay < u32sub now m.last_ptt_time
      · exact hg
      · rw [hpt_rejwin now lvl m hne hg] at h
        rcases h with h | h <;> exact absurd rfl h
    · rw [hpt_same now lvl m hne] at h
      rcases h with h | h <;> exact absurd rfl h
  · have e1 : handleEncoderSwitch t1 false m =
        { m with
          last_enc_sw_time := t1
          trx := stepCycle m.trx
          eeprom := saveSettings (stepCycle m.trx)
          last_sw_state := false } :=
      hes_accept t1 false m ⟨rfl, hsw⟩ hacc
    have e2 : handleEncoderSwitch tr true (handleEncoderSwitch t1 false m) =
        { handleEncoderSwitch t1 false m with last_sw_state := true } :=
      hes_noedge tr true _ (by simp)
    have hlt : (handleEncoderSwitch tr true
        (handleEncoderSwitch t1 false m)).last_enc_sw_time = t1 := by
      rw [e2, e1]
    have e3 : handleEncoderSwitch t2 false (handleEncoderSwitch tr true
        (handleEncoderSwitch t1 false m)) =
        { handleEncoderSwitch tr true (handleEncoderSwitch t1 false m) with
          last_sw_state := false } := by
      refine hes_rejwin t2 false _ ⟨rfl, by rw [e2]⟩ ?_
      rw [hlt]
      exact not_lt.mpr hwin
    have hall : handleEncoderSwitch t2 false (handleEncoderSwitch tr true
        (handleEncoderSwitch t1 false m)) =
        { m with
          last_enc_sw_time := t1
          trx := stepCycle m.trx
          eeprom := saveSettings (stepCycle m.trx)
          last_sw_state := false } := by
      rw [e3, e2, e1]
    refine ⟨by rw [hall], by rw [hall], ?_⟩
    rw [hall]
    exact stepCycle_idx m.trx

/-- Witness for C6: presses at 100 ms and 130 ms (release at 120 ms)
with the window open since time 0 advance the step table exactly once. -/
theorem debounce_window_witness :
    (mach0.last_sw_state = true ∧
     debounce_delay < u32sub 100 mach0.last_enc_sw_time ∧
     u32sub 130 100 ≤ debounce_delay) ∧
    ((handleEncoderSwitch 130 false (handleEncoderSwitch 120 true
        (handleEncoderSwitch 100 false mach0))).trx = stepCycle mach0.trx ∧
     (handleEncoderSwitch 130 false (handleEncoderSwitch 120 true
        (handleEncoderSwitch 100 false mach0))).eeprom =
       saveSettings (stepCycle mach0.trx) ∧
     (handleEncoderSwitch 130 false (handleEncoderSwitch 120 true
        (handleEncoderSwitch 100 false mach0))).trx.step_index =
       (mach0.trx.step_index + 1) % num_steps) :=
  ⟨⟨by decide, by decide, by decide⟩,
   (debounce_window mach0 0 100 120 130 true (by decide) (by decide) (by decide)).2.2⟩

lemma fold_ptt_high (ts : List Nat) (acc : MachState)
    (h : acc.last_ptt_state = true) : runPTTHigh acc ts = acc := by
  induction ts generalizing acc with
  | nil => rfl
  | cons t tl ih =>
      have hs : handlePTT t true acc = acc := hpt_same t true acc (by simp [h])
      have hstep : runPTTHigh acc (t :: tl) = runPTTHigh (handlePTT t true acc) tl := rfl
      rw [hstep, hs]
      exact ih acc h

/-- Claim C9 (implicit behaviour): a PTT level transition rejected by
the debounce window still overwrites the remembered `last_ptt_state`;
hence a real, stable release arriving within 50 ms of the accepted
assert changes no state except that memory, and — since all later HIGH
samples equal the remembered level — the release event is never
produced later: `tx_mode` (and with it the TX enable line) stays true
for every subsequent sequence of HIGH samples. -/
theorem ptt_release_lost (m : MachState) (t1 : Nat)
    (hlast : m.last_ptt_state = false) (htx : m.trx.tx_mode = true)
    (hw : u32sub t1 m.last_ptt_time ≤ debounce_delay) :
    (handlePTT t1 true m).trx = m.trx ∧
    (handlePTT t1 true m).last_ptt_state = true ∧
    ∀ ts : List Nat, (runPTTHigh (handlePTT t1 true m) ts).trx.tx_mode = true := by
  have e1 : handlePTT t1 true m = { m with last_ptt_state := true } :=
    hpt_rejwin t1 true m (by simp [hlast]) (not_lt.mpr hw)
  refine ⟨by rw [e1], by rw [e1], fun ts => ?_⟩
  rw [fold_ptt_high ts _ (by rw [e1]), e1]
  exact htx

/-- Witness for C9: release at 1030 ms, 30 ms after the accepted assert;
`tx_mode` stays true through later HIGH samples at 2000 ms and 3000 ms. -/
theorem ptt_release_lost_witness :
    (mach9.last_ptt_state = false ∧ mach9.trx.tx_mode = true ∧
     u32sub 1030 mach9.last_ptt_time ≤ debounce_delay) ∧
    ((handlePTT 1030 true mach9).trx = mach9.trx ∧
     (handlePTT 1030 true mach9).last_ptt_state = true ∧
     (runPTTHigh (handlePTT 1030 true mach9) [2000, 3000]).trx.tx_mode = true) :=
  ⟨⟨by decide, by decide, by decide⟩,
   (ptt_release_lost mach9 1030 (by decide) (by decide) (by decide)).1,
   (ptt_release_lost mach9 1030 (by decide) (by decide) (by decide)).2.1,
   (ptt_release_lost mach9 1030 (by decide) (by decide) (by decide)).2.2 [2000, 3000]⟩

lemma loopRender_pos (m : MachState) (r : Option (Nat × Nat × Nat × Bool))
    (h : m.trx.display_update_needed = true) :
    loopRender m r =
      ({ mach := { m with trx := { m.trx with display_update_needed := false } }
         rendered := some (view m.trx) }, true) := by
  rw [loopRender, if_pos h]

lemma loopRender_neg (m : MachState) (r : Option (Nat × Nat × Nat × Bool))
    (h : m.trx.display_update_needed = false) :
    loopRender m r = ({ mach := m, rendered := r }, false) := by
  rw [loopRender, if_neg (by simp [h])]

lemma u64add_ne_self (f s : Nat) (h1 : 0 < s) (h2 : s < U64) : u64add f s ≠ f := by
  simp only [u64add, U64] at h2 ⊢
  omega

lemma u64sub_ne_self (f s : Nat) (h1 : 0 < s) (h2 : s < U64) : u64sub f s ≠ f := by
  simp only [u64sub, U64] at h2 ⊢
  omega

lemma view_ne_of_freq {x y : TrxState} (h : x.frequency ≠ y.frequency) :
    view x ≠ view y :=
  fun he => h (congrArg Prod.fst he)

lemma view_ne_of_idx {x y : TrxState} (h : x.step_index ≠ y.step_index) :
    view x ≠ view y :=
  fun he => h (congrArg (fun p : Nat × Nat × Nat × Bool => p.2.2.1) he)

lemma view_ne_of_tx {x y : TrxState} (h : x.tx_mode ≠ y.tx_mode) :
    view x ≠ view y :=
  fun he => h (congrArg (fun p : Nat × Nat × Nat × Bool => p.2.2.2) he)

lemma mod_succ_ne (n : Nat) : (n + 1) % num_steps ≠ n := by
  have h : num_steps = 4 := rfl
  rw [h]
  omega

lemma stepCycle_dirty (t : TrxState) : (stepCycle t).display_update_needed = true := rfl

lemma applyTune_frame (s : TrxState) (d : Dir) (hs : s.step_size ∈ step_sizes) :
    ((applyTune s d).step_size = s.step_size ∧
     (applyTune s d).step_index = s.step_index ∧
     (applyTune s d).tx_mode = s.tx_mode) ∧
    ((applyTune s d).display_update_needed = true ↔
      (s.display_update_needed = true ∨ (applyTune s d).frequency ≠ s.frequency)) := by
  obtain ⟨hp, hb⟩ := step_mem_bound hs
  cases d with
  | cw =>
      rcases le_or_lt (u64add s.frequency s.step_size) FREQ_MAX with h | h
      · rw [applyTune, handleEncoder_cw, if_pos h]
        refine ⟨⟨rfl, rfl, rfl⟩, ?_⟩
        have hne : u64add s.frequency s.step_size ≠ s.frequency :=
          u64add_ne_self _ _ hp (by simp only [U64]; omega)
        exact iff_of_true rfl (Or.inr hne)
      · rw [applyTune, handleEncoder_cw, if_neg (not_le.mpr h)]
        exact ⟨⟨rfl, rfl, rfl⟩, by simp⟩
  | ccw =>
      rcases le_or_lt (u64add s.step_size FREQ_MIN) s.frequency with h | h
      · rw [applyTune, handleEncoder_ccw, if_pos h]
        refine ⟨⟨rfl, rfl, rfl⟩, ?_⟩
        have hne : u64sub s.frequency s.step_size ≠ s.frequency :=
          u64sub_ne_self _ _ hp (by simp only [U64]; omega)
        exact iff_of_true rfl (Or.inr hne)
      · rw [applyTune, handleEncoder_ccw, if_neg (not_le.mpr h)]
        exact ⟨⟨rfl, rfl, rfl⟩, by simp⟩
  | idle =>
      rw [applyTune, handleEncoder_idle]
      exact ⟨⟨rfl, rfl, rfl⟩, by simp⟩

lemma pttApply_pos (b : Bool) (s : TrxState) (h : b ≠ s.tx_mode) :
    pttApply b s = ({ s with tx_mode := b, display_update_needed := true }, some b) := by
  rw [pttApply, if_pos h]

lemma pttApply_neg (b : Bool) (s : TrxState) (h : ¬ b ≠ s.tx_mode) :
    pttApply b s = (s, none) := by
  rw [pttApply, if_neg h]

lemma handlePTT_frame (now : Nat) (lvl : Bool) (m : MachState) :
    ((handlePTT now lvl m).trx.frequency = m.trx.frequency ∧
     (handlePTT now lvl m).trx.step_size = m.trx.step_size ∧
     (handlePTT now lvl m).trx.step_index = m.trx.step_index ∧
     (handlePTT now lvl m).eeprom = m.eeprom ∧
     (handlePTT now lvl m).last_sw_state = m.last_sw_state ∧
     (handlePTT now lvl m).last_enc_sw_time = m.last_enc_sw_time) ∧
    ((handlePTT now lvl m).trx.display_update_needed = true ↔
      (m.trx.display_update_needed = true ∨
       (handlePTT now lvl m).trx.tx_mode ≠ m.trx.tx_mode)) := by
  by_cases hne : lvl ≠ m.last_ptt_state
  · by_cases hg : debounce_delay < u32sub now m.last_ptt_time
    · rw [hpt_accept now lvl m hne hg]
      by_cases hb : (!lvl) ≠ m.trx.tx_mode
      · rw [pttApply_pos _ _ hb]
        refine ⟨⟨rfl, rfl, rfl, rfl, rfl, rfl⟩, ?_⟩
        exact iff_of_true rfl (Or.inr hb)
      · rw [pttApply_neg _ _ hb]
        exact ⟨⟨rfl, rfl, rfl, rfl, rfl, rfl⟩, by simp⟩
    · rw [hpt_rejwin now lvl m hne hg]
      exact ⟨⟨rfl, rfl, rfl, rfl, rfl, rfl⟩, by simp⟩
  · rw [hpt_same now lvl m hne]
    exact ⟨⟨rfl, rfl, rfl, rfl, rfl, rfl⟩, by simp⟩

lemma handleEncoderSwitch_frame (now : Nat) (lvl : Bool) (m : MachState) :
    ((handleEncoderSwitch now lvl m).trx.frequency = m.trx.frequency ∧
     (handleEncoderSwitch now lvl m).trx.tx_mode = m.trx.tx_mode ∧
     (handleEncoderSwitch now lvl m).last_ptt_state = m.last_ptt_state ∧
     (handleEncoderSwitch now lvl m).last_ptt_time = m.last_ptt_time) ∧
    ((handleEncoderSwitch now lvl m).trx.step_index = m.trx.step_index →
      (handleEncoderSwitch now lvl m).trx.step_size = m.trx.step_size) ∧
    ((handleEncoderSwitch now lvl m).trx.display_update_needed = true ↔
      (m.trx.display_update_needed = true ∨
       (handleEncoderSwitch now lvl m).trx.step_index ≠ m.trx.step_index)) := by
  by_cases hc : lvl = false ∧ m.last_sw_state = true
  · by_cases hg : debounce_delay < u32sub now m.last_enc_sw_time
    · rw [hes_accept now lvl m hc hg]
      refine ⟨⟨rfl, rfl, rfl, rfl⟩, ?_, ?_⟩
      · intro h
        rw [stepCycle_idx] at h
        exact absurd h (mod_succ_ne _)
      · refine iff_of_true (stepCycle_dirty m.trx) (Or.inr ?_)
        rw [stepCycle_idx]
        exact mod_succ_ne _
    · rw [hes_rejwin now lvl m hc hg]
      exact ⟨⟨rfl, rfl, rfl, rfl⟩, fun _ => rfl, by simp⟩
  · rw [hes_noedge now lvl m hc]
    exact ⟨⟨rfl, rfl, rfl, rfl⟩, fun _ => rfl, by simp⟩

/-- Claim C5 counterexample: in the very first `loop()` iteration after
startup, with no input activity at all, a render occurs (the flag was
initialized true and `setup()`'s own `updateDisplay()` call at line 151
never cleared it) even though the state equals the snapshot `setup()`
already rendered — the display IS redrawn on an unchanged state. -/
theorem first_iteration_redraws_unchanged :
    (loopIter postSetupWorld idleInputs).2 = true ∧
    postSetupWorld.rendered = some (view postSetupWorld.mach.trx) ∧
    view (loopIter postSetupWorld idleInputs).1.mach.trx =
      view postSetupWorld.mach.trx := by decide

/-- Claim C5 (amended): from any clean loop boundary — dirty flag
clear and last-rendered snapshot equal to the current state, the
condition that holds again at the end of every iteration — one `loop()`
iteration renders if and only if its input events changed the state;
so the display is never redrawn on an unchanged state and is redrawn in
the same iteration as any change.  The boundary left by `setup()` is
not clean (the flag is still set after the initial render), so the very
first iteration performs one redundant render of the unchanged state;
the guarantee holds from every later boundary. -/
theorem render_iff_changed (w : World) (i : LoopInputs)
    (hclean : w.mach.trx.display_update_needed = false)
    (hr : w.rendered = some (view w.mach.trx))
    (hs : w.mach.trx.step_size ∈ step_sizes) :
    ((loopIter w i).2 = true ↔ view (loopIter w i).1.mach.trx ≠ view w.mach.trx) ∧
    (loopIter w i).1.mach.trx.display_update_needed = false ∧
    (loopIter w i).1.rendered = some (view (loopIter w i).1.mach.trx) := by
  set A := handleEncoderM i.enc w.mach with hA
  set B := handlePTT i.now i.ptt A with hB
  set C := handleEncoderSwitch i.now i.sw B with hC
  have hli : loopIter w i = loopRender C w.rendered := by
    rw [hC, hB, hA]
    rfl
  have FA := applyTune_frame w.mach.trx i.enc hs
  have hat : A.trx = applyTune w.mach.trx i.enc := by
    rw [hA]
    rfl
  rw [← hat] at FA
  have FB := handlePTT_frame i.now i.ptt A
  rw [← hB] at FB
  have FC := handleEncoderSwitch_frame i.now i.sw B
  rw [← hC] at FC
  obtain ⟨⟨fa_size, fa_idx, fa_tx⟩, fa_dirty⟩ := FA
  obtain ⟨⟨fb_freq, fb_size, fb_idx, fb_ee, fb_sw, fb_et⟩, fb_dirty⟩ := FB
  obtain ⟨⟨fc_freq, fc_tx, fc_ps, fc_pt⟩, fc_size, fc_dirty⟩ := FC
  cases hd : C.trx.display_update_needed with
  | true =>
      have e := loopRender_pos C w.rendered hd
      rw [hli, e]
      have hne : view C.trx ≠ view w.mach.trx := by
        rcases fc_dirty.mp hd with hbd | hidx
        · rcases fb_dirty.mp hbd with had | htx
          · rcases fa_dirty.mp had with hwd | hfreq
            · rw [hclean] at hwd
              exact Bool.noConfusion hwd
            · apply view_ne_of_freq
              rw [fc_freq, fb_freq]
              exact hfreq
          · apply view_ne_of_tx
            rw [fa_tx] at htx
            rw [fc_tx]
            exact htx
        · apply view_ne_of_idx
          rw [fb_idx, fa_idx] at hidx
          exact hidx
      exact ⟨iff_of_true rfl hne, rfl, rfl⟩
  | false =>
      have e := loopRender_neg C w.rendered hd
      rw [hli, e]
      have h1 : ¬ (B.trx.display_update_needed = true ∨
          C.trx.step_index ≠ B.trx.step_index) := by
        intro hcon
        have hx := fc_dirty.mpr hcon
        rw [hd] at hx
        exact Bool.noConfusion hx
      push_neg at h1
      obtain ⟨hbd, hidx⟩ := h1
      have hbd2 : B.trx.display_update_needed = false := by
        cases hx : B.trx.display_update_needed with
        | false => rfl
        | true => exact absurd hx hbd
      have h2 : ¬ (A.trx.display_update_needed = true ∨
          B.trx.tx_mode ≠ A.trx.tx_mode) := by
        intro hcon
        have hx := fb_dirty.mpr hcon
        rw [hbd2] at hx
        exact Bool.noConfusion hx
      push_neg at h2
      obtain ⟨had, htx⟩ := h2
      have had2 : A.trx.display_update_needed = false := by
        cases hx : A.trx.display_update_needed with
        | false => rfl
        | true => exact absurd hx had
      have h3 : ¬ (w.mach.trx.display_update_needed = true ∨
          A.trx.frequency ≠ w.mach.trx.frequency) := by
        intro hcon
        have hx := fa_dirty.mpr hcon
        rw [had2] at hx
        exact Bool.noConfusion hx
      push_neg at h3
      obtain ⟨-, hfreq⟩ := h3
      have hview : view C.trx = view w.mach.trx := by
        have c1 : C.trx.frequency = w.mach.trx.frequency := by
          rw [fc_freq, fb_freq, hfreq]
        have c2 : C.trx.step_size = w.mach.trx.step_size := by
          rw [fc_size hidx, fb_size, fa_size]
        have c3 : C.trx.step_index = w.mach.trx.step_index := by
          rw [hidx, fb_idx, fa_idx]
        have c4 : C.trx.tx_mode = w.mach.trx.tx_mode := by
          rw [fc_tx, htx, fa_tx]
        simp only [view, c1, c2, c3, c4]
      refine ⟨iff_of_false (by simp) (fun hn => hn hview), hd, ?_⟩
      rw [hr, hview]

/-- Witness for C5's amended theorem: from a clean boundary, an
iteration carrying a clockwise tick renders, exactly because the state
changed. -/
theorem render_iff_changed_witness :
    (cleanWorld.mach.trx.display_update_needed = false ∧
     cleanWorld.rendered = some (view cleanWorld.mach.trx) ∧
     cleanWorld.mach.trx.step_size ∈ step_sizes) ∧
    (((loopIter cleanWorld tuneInputs).2 = true ↔
       view (loopIter cleanWorld tuneInputs).1.mach.trx ≠ view cleanWorld.mach.trx) ∧
     (loopIter cleanWorld tuneInputs).1.mach.trx.display_update_needed = false ∧
     (loopIter cleanWorld tuneInputs).1.rendered =
       some (view (loopIter cleanWorld tuneInputs).1.mach.trx)) :=
  ⟨⟨by decide, by decide, by decide⟩,
   render_iff_changed cleanWorld tuneInputs (by decide) (by decide) (by decide)⟩

end Trx
